import Mathlib

/-!
Verification of the llm-tracer service core against its specification.

The service (FastAPI + DynamoDB, `service/src/`) is shallowly embedded here:

* `Val` models the JSON-like Python values carried in trace/span payloads
  (`Dict[str, Any]` restricted to JSON-representable data); Python `dict`s
  become ordered association lists, as Python dicts preserve insertion order.
* `jsonDumps` models `json.dumps(x, default=str)` with its default
  separators and `ensure_ascii=True`; Python `len` on the resulting `str`
  counts code points, which matches `String.length` on our output.
* The size-guard pipeline of `service/src/models.py`
  (`truncate_dict`, `_truncate_string_values`, `_drop_large_keys`,
  `truncate_string`) is translated function by function.
* `service/src/auth.py`, `service/src/rate_limit.py`,
  `service/src/storage_dynamodb.py` and the handlers of
  `service/src/server.py` are embedded as pure functions over explicit
  store states.

Strings are manipulated through their underlying character lists
(`String.data`), matching Python semantics where `str` is a sequence of
code points.
-/

/-- JSON-representable Python values as stored in trace/span payloads.
Python dicts preserve insertion order, hence ordered association lists. -/
inductive Val : Type where
  | vnull : Val
  | vbool : Bool → Val
  | vint : Int → Val
  | vstr : String → Val
  | varr : List Val → Val
  | vobj : List (String × Val) → Val

/-- Python `len(s)` for `str`: the number of code points. -/
def strLen (s : String) : Nat := s.data.length

/-- Python `s[:n]` for `0 ≤ n`: the first `n` code points. -/
def strTakeN (s : String) (n : Nat) : String := String.mk (s.data.take n)

/-- Python `s[:j]` for an arbitrary (possibly negative) integer stop:
negative stops count from the end, clamped at zero. -/
def pySliceTo (s : String) (j : Int) : String :=
  if 0 ≤ j then strTakeN s j.toNat
  else strTakeN s ((strLen s : Int) + j).toNat

/-- Hex digit (lowercase) used by the `\uXXXX` escapes of `json.dumps`. -/
def hexDigit (n : Nat) : Char :=
  if n < 10 then Char.ofNat (48 + n) else Char.ofNat (87 + n)

/-- Four-digit lowercase hex, as in CPython's `\uXXXX` escapes. -/
def hex4 (n : Nat) : List Char :=
  [hexDigit (n / 4096 % 16), hexDigit (n / 256 % 16),
   hexDigit (n / 16 % 16), hexDigit (n % 16)]

/-- Escape one character the way `json.dumps` (`ensure_ascii=True`) does:
`"` and `\` get a backslash, the usual control shorthands apply, every
other character outside `0x20`–`0x7e` becomes `\uXXXX` (with surrogate
pairs above `0xffff`). -/
def jsonEscapeChar (c : Char) : List Char :=
  if c = '"' then ['\\', '"']
  else if c = '\\' then ['\\', '\\']
  else if c = Char.ofNat 8 then ['\\', 'b']
  else if c = Char.ofNat 9 then ['\\', 't']
  else if c = Char.ofNat 10 then ['\\', 'n']
  else if c = Char.ofNat 12 then ['\\', 'f']
  else if c = Char.ofNat 13 then ['\\', 'r']
  else if c.toNat < 32 ∨ 126 < c.toNat then
    if c.toNat < 65536 then '\\' :: 'u' :: hex4 c.toNat
    else
      let v := c.toNat - 65536
      ('\\' :: 'u' :: hex4 (55296 + v / 1024)) ++ ('\\' :: 'u' :: hex4 (56320 + v % 1024))
  else [c]

/-- Escape every character of a string body in turn. -/
def escapeChars : List Char → List Char
  | [] => []
  | c :: rest => jsonEscapeChar c ++ escapeChars rest

/-- JSON string literal: quote, escaped body, quote. -/
def jsonQuote (s : String) : List Char :=
  '"' :: escapeChars s.data ++ ['"']

mutual

/-- Serialization of one value, as a character list; models
`json.dumps(x, default=str)` with the default separators. -/
def dumpVal : Val → List Char
  | .vnull => "null".data
  | .vbool b => if b then "true".data else "false".data
  | .vint n => (toString n).data
  | .vstr s => jsonQuote s
  | .varr xs => '[' :: dumpArr xs ++ [']']
  | .vobj l => '\x7b' :: dumpObj l ++ ['\x7d']

/-- Array elements joined by `", "`. -/
def dumpArr : List Val → List Char
  | [] => []
  | [x] => dumpVal x
  | x :: y :: rest => dumpVal x ++ ',' :: ' ' :: dumpArr (y :: rest)

/-- Object entries `"key": value` joined by `", "`. -/
def dumpObj : List (String × Val) → List Char
  | [] => []
  | [(k, v)] => jsonQuote k ++ ':' :: ' ' :: dumpVal v
  | (k, v) :: e :: rest =>
      jsonQuote k ++ ':' :: ' ' :: dumpVal v ++ ',' :: ' ' :: dumpObj (e :: rest)

end

/-- Models `json.dumps(x, default=str)` as a Lean string. -/
def jsonDumps (v : Val) : String := String.mk (dumpVal v)

/-- Python `len(json.dumps(x, default=str))` for a payload value. -/
def dumpsLen (v : Val) : Nat := (dumpVal v).length

/-- Python dict key membership `k in d` for our ordered association lists. -/
def dictHasKey (l : List (String × Val)) (k : String) : Bool :=
  l.any (fun p => p.1 == k)

/-- Python `d[k]` (the keys of a Python dict are unique, so first match). -/
def dictGet (l : List (String × Val)) (k : String) : Val :=
  ((l.lookup k).getD .vnull)

/-- Replace the value stored at a key, keeping its position (the keys of a
Python dict are unique, so at most one entry is affected). -/
def setInPlace : List (String × Val) → String → Val → List (String × Val)
  | [], _, _ => []
  | p :: rest, k, v =>
    if p.1 == k then (k, v) :: setInPlace rest k v else p :: setInPlace rest k v

/-- Python `d[k] = v`: replace in place when the key exists (keeping its
position), append otherwise. -/
def dictSet (l : List (String × Val)) (k : String) (v : Val) : List (String × Val) :=
  if dictHasKey l k then setInPlace l k v else l ++ [(k, v)]

/-! ## Size guard (`service/src/models.py`) -/

/-- The in-dict truncation marker of `_truncate_string_values`:
`"... [truncated, was K chars]"`. -/
def dictMarker (k : Nat) : String :=
  "... [truncated, was " ++ toString k ++ " chars]"

mutual

/-- One dict entry value under `_truncate_string_values`: long strings get
the marker, nested dicts recurse, lists are handled per element. -/
def tsvEntry (cap : Nat) : Val → Val
  | .vstr s => if cap < strLen s then .vstr (strTakeN s cap ++ dictMarker (strLen s))
               else .vstr s
  | .vobj l => .vobj (tsvObj cap l)
  | .varr xs => .varr (tsvArr cap xs)
  | v => v

/-- Models `_truncate_string_values(data, max_size, max_str_len)` from
`service/src/models.py` (the `max_size` argument is passed along but never
used there, so it is omitted). -/
def tsvObj (cap : Nat) : List (String × Val) → List (String × Val)
  | [] => []
  | (k, v) :: rest => (k, tsvEntry cap v) :: tsvObj cap rest

/-- The list comprehension inside `_truncate_string_values`: element by
element. -/
def tsvArr (cap : Nat) : List Val → List Val
  | [] => []
  | x :: rest => tsvElem cap x :: tsvArr cap rest

/-- One list element in `_truncate_string_values`: nested dicts recurse;
long strings get `v[:max_str_len] + "..."` (no length marker); everything
else — including nested lists — is left unchanged. -/
def tsvElem (cap : Nat) : Val → Val
  | .vobj l => .vobj (tsvObj cap l)
  | .vstr s => if cap < strLen s then .vstr (strTakeN s cap ++ "...") else .vstr s
  | v => v

end

/-- Python's `max(droppable, key=size)`: the first element of maximal
size (later elements replace the champion only when strictly larger). -/
def largestKeyBy (sizeOf_ : String → Nat) : List String → Option String
  | [] => none
  | k :: rest => some (rest.foldl (fun best k2 => if sizeOf_ best < sizeOf_ k2 then k2 else best) k)

/-- The value replacement written by `_drop_large_keys`:
`"[dropped: K bytes]"`. -/
def droppedMarker (k : Nat) : String :=
  "[dropped: " ++ toString k ++ " bytes]"

/-- The `while` loop of `_drop_large_keys`, with the not-yet-dropped keys
(in dict order) made explicit. Each iteration removes one key from
`droppable`, so running the loop with fuel equal to the initial number of
droppable keys reproduces it exactly: when the fuel is exhausted the
droppable list is empty and the loop would break anyway. -/
def dropLoopF (maxSize : Nat) : Nat → List String → List (String × Val) → List (String × Val)
  | 0, _, result => result
  | fuel + 1, droppable, result =>
    if dumpsLen (.vobj result) ≤ maxSize ∨ result.isEmpty then result
    else match largestKeyBy (fun k => dumpsLen (dictGet result k)) droppable with
      | none => result
      | some k =>
          dropLoopF maxSize fuel (droppable.erase k)
            (dictSet result k (.vstr (droppedMarker (dumpsLen (dictGet result k)))))

/-- Models `_drop_large_keys(data, max_size)` from `service/src/models.py`:
repeatedly replace the largest not-yet-dropped value with a
`"[dropped: K bytes]"` marker until the dict fits or no droppable key
remains. -/
def drop_large_keys (data : List (String × Val)) (maxSize : Nat) : List (String × Val) :=
  dropLoopF maxSize (data.map Prod.fst).length (data.map Prod.fst) data

/-- Models `truncate_dict(data, max_size, field_name)` from
`service/src/models.py`: pass through when it fits, else truncate inner
strings (tagging with `_truncated` when that suffices), else drop the
largest keys and tag with `_truncated` and `_original_size`. -/
def truncate_dict (data : List (String × Val)) (maxSize : Nat) : List (String × Val) :=
  match data with
  | [] => []
  | _ :: _ =>
    let serializedLen := dumpsLen (.vobj data)
    if serializedLen ≤ maxSize then data
    else
      let truncated := tsvObj 1000 data
      if dumpsLen (.vobj truncated) ≤ maxSize then dictSet truncated "_truncated" (.vbool true)
      else
        let dropped := drop_large_keys data maxSize
        dictSet (dictSet dropped "_truncated" (.vbool true)) "_original_size"
          (.vint serializedLen)

/-- The single-cut marker of `truncate_string`:
`"\n... [truncated, was K chars]"`. -/
def stringMarker (k : Nat) : String :=
  "\n... [truncated, was " ++ toString k ++ " chars]"

/-- Models `truncate_string(value, max_length, field_name)` from
`service/src/models.py`. `None` and `""` are falsy and returned as is;
strings within the ceiling are unchanged; longer strings are cut to
`value[:max_length - 50]` (Python slice semantics) plus the marker. -/
def truncate_string (value : Option String) (maxLength : Nat) : Option String :=
  match value with
  | none => none
  | some v =>
    if strLen v = 0 then some v
    else if strLen v ≤ maxLength then some v
    else some (pySliceTo v ((maxLength : Int) - 50) ++ stringMarker (strLen v))

/-! ## Authorization (`service/src/auth.py`) -/

/-- Python `s.startswith(p)`. -/
def pyStartsWith (s p : String) : Bool := s.data.take p.data.length == p.data

/-- Python `s[n:]` for `0 ≤ n`: drop the first `n` code points. -/
def strDropN (s : String) (n : Nat) : String := String.mk (s.data.drop n)

/-- Models `extract_project_id(api_key)` from `service/src/auth.py`.
Under the `startswith("project-")` guard, the first occurrence targeted by
`api_key.replace("project-", "", 1)` is the 8-character prefix itself, so
the replacement equals dropping that prefix. A non-matching key or an
empty remainder raises HTTP 400. -/
def extract_project_id (apiKey : String) : Except Nat String :=
  if pyStartsWith apiKey "project-" then
    if strDropN apiKey (strLen "project-") = "" then .error 400
    else .ok (strDropN apiKey (strLen "project-"))
  else .error 400

/-! ## Rate limiter (`service/src/rate_limit.py`) -/

/-- Models one `RateLimiter.check_rate_limit` call: prune the caller's
timestamps to the window (the pruned list is stored back before the
check), then either reject with 429 — appending nothing — or append the
current time. Returns the stored list and the HTTP error, if any. -/
def check_rate_limit (rpm : Nat) (window : ℚ) (times : List ℚ) (now : ℚ) :
    List ℚ × Option Nat :=
  let kept := times.filter (fun t => now - t < window)
  if rpm ≤ kept.length then (kept, some 429)
  else (kept ++ [now], none)

/-! ## Completion durations (`service/src/storage_dynamodb.py`) -/

/-- Python `int(x)`: truncation toward zero, on exact rationals. -/
def pyIntOfRat (q : ℚ) : Int := if 0 ≤ q then Rat.floor q else -(Rat.floor (-q))

/-- Models the `duration_ms` computation shared by
`DynamoDBStorage.complete_trace` and `DynamoDBStorage.complete_span`:
`int((end_time - start_time).total_seconds() * 1000)`. Timestamps are
integer microsecond counts (the resolution of `datetime`), and the float
arithmetic of `total_seconds` is idealized as exact rational arithmetic. -/
def completion_duration_ms (startUs endUs : Int) : Int :=
  pyIntOfRat ((endUs - startUs : ℚ) / 1000000 * 1000)

/-! ## Completion update expressions (`service/src/storage_dynamodb.py`) -/

/-- The clause list of the `SET` update expression built by
`DynamoDBStorage.complete_span`: always `end_time` and `duration_ms`,
then one clause per optional argument that is not `None`, in source
order. The method has no `cost_usd` parameter. -/
def span_update_parts (outputData : Option Val) (error : Option String)
    (tokensInput tokensOutput : Option Int) : List String :=
  ["end_time = :end_time", "duration_ms = :duration_ms"]
    ++ (if outputData.isSome then ["output_data = :output_data"] else [])
    ++ (if error.isSome then ["#error_field = :error"] else [])
    ++ (if tokensInput.isSome then ["tokens_input = :tokens_input"] else [])
    ++ (if tokensOutput.isSome then ["tokens_output = :tokens_output"] else [])

/-- The full span update expression string. -/
def span_update_expr (outputData : Option Val) (error : Option String)
    (tokensInput tokensOutput : Option Int) : String :=
  "SET " ++ String.intercalate ", " (span_update_parts outputData error tokensInput tokensOutput)

/-- `ExpressionAttributeNames` for the span update: the reserved word
`error` is escaped as `#error_field` exactly when an error is written. -/
def span_expr_attr_names (error : Option String) : List (String × String) :=
  if error.isSome then [("#error_field", "error")] else []

/-- The clause list of the `SET` expression built by
`DynamoDBStorage.complete_trace`: `end_time`, `duration_ms`, and `output`
guarded by Python truthiness (`if output:`), so `None` and the empty
string are both omitted. The method has no `metadata` parameter, and the
`complete_trace` handler in `service/src/server.py` never forwards the
request's `metadata` field. -/
def trace_update_parts (output : Option String) : List String :=
  ["end_time = :end_time", "duration_ms = :duration_ms"]
    ++ (match output with
        | some o => if o = "" then [] else ["output = :output"]
        | none => [])

/-- The full trace update expression string. -/
def trace_update_expr (output : Option String) : String :=
  "SET " ++ String.intercalate ", " (trace_update_parts output)

/-- DynamoDB applies a `SET` expression by overwriting exactly the named
attributes of the item, leaving every other attribute untouched. -/
def applySet (item : List (String × Val)) (assignments : List (String × Val)) :
    List (String × Val) :=
  assignments.foldl (fun it p => dictSet it p.1 p.2) item

/-! ## Python keyword-call model for the completion endpoints -/

/-- The keyword parameters of `DynamoDBStorage.complete_span`
(`service/src/storage_dynamodb.py` lines 489-497); there is no `**kwargs`
and no `cost_usd`. -/
def complete_span_params : List String :=
  ["span_id", "end_time", "output_data", "error", "tokens_input", "tokens_output"]

/-- The keyword arguments the `complete_span` handler passes to
`storage.complete_span` (`service/src/server.py` lines 190-198),
including `cost_usd=request.cost_usd`. -/
def server_complete_span_kwargs : List String :=
  ["span_id", "end_time", "output_data", "error", "tokens_input", "tokens_output", "cost_usd"]

/-- A Python keyword call succeeds only when every keyword argument names
a declared parameter; otherwise the call raises `TypeError` before the
body runs. -/
def pyKwargsAccepted (params kwargs : List String) : Bool :=
  kwargs.all (fun k => params.contains k)

/-! ## Store state and handler outcomes (`service/src/server.py`) -/

/-- The trace attributes the authorization paths consult. -/
structure TraceRec where
  project_id : String
  start_time : String
  deriving DecidableEq

/-- The span attributes the authorization paths consult. -/
structure SpanRec where
  trace_id : String
  start_time : String
  deriving DecidableEq

/-- The persisted state: both DynamoDB tables as key-to-record maps. -/
structure Store where
  traces : List (String × TraceRec)
  spans : List (String × SpanRec)

/-- Models `DynamoDBStorage.get_trace(trace_id, project_id)`: a missing
trace gives `None`; when a (truthy) project id is supplied and differs
from the trace's, the trace is also reported as `None`. -/
def store_get_trace (st : Store) (traceId : String) (projectId : Option String) :
    Option TraceRec :=
  match st.traces.lookup traceId with
  | none => none
  | some t =>
    match projectId with
    | some p => if p ≠ "" ∧ t.project_id ≠ p then none else some t
    | none => some t

/-- Models `DynamoDBStorage.get_span(span_id)`: primary-key fetch, no
ownership information on the span record itself. -/
def store_get_span (st : Store) (spanId : String) : Option SpanRec :=
  st.spans.lookup spanId

/-- Models `DynamoDBStorage.get_spans(trace_id, project_id)`: with a
(truthy) project id the trace is authorized first and a missing or
cross-project trace yields the empty list; then the trace-index query
returns the spans of the trace. -/
def store_get_spans (st : Store) (traceId : String) (projectId : Option String) :
    List SpanRec :=
  let query := (st.spans.filter (fun q => q.2.trace_id = traceId)).map Prod.snd
  match projectId with
  | some p =>
    if p = "" then query
    else match store_get_trace st traceId (some p) with
      | none => []
      | some _ => query
  | none => query

/-- Status code of `GET /api/traces/{trace_id}`: 404 when the trace is
missing or owned by another project, else 200 with the trace and its
spans. -/
def get_trace_status (st : Store) (caller traceId : String) : Nat :=
  match store_get_trace st traceId (some caller) with
  | none => 404
  | some _ => 200

/-- Status code of `POST /api/traces/{trace_id}/spans`: 404 when the
trace is missing or owned by another project, else the span is saved and
the handler answers 200. -/
def create_span_status (st : Store) (caller traceId : String) : Nat :=
  match store_get_trace st traceId (some caller) with
  | none => 404
  | some _ => 200

/-- Status code of `PATCH /api/traces/{trace_id}/complete`: 404 when the
trace is missing or owned by another project; otherwise the handler
ignores the boolean result of `storage.complete_trace` and answers 200. -/
def complete_trace_status (st : Store) (caller traceId : String) : Nat :=
  match store_get_trace st traceId (some caller) with
  | none => 404
  | some _ => 200

/-- Status code of `PATCH /api/spans/{span_id}/complete`: 404 when the
span is missing; 403 (`service/src/server.py` lines 182-187) when its
trace is missing or owned by another project; otherwise the handler calls
`storage.complete_span` with the keyword `cost_usd`, which the method does
not declare, so the call raises `TypeError` and the handler's generic
`except` maps it to 500. -/
def complete_span_status (st : Store) (caller spanId : String) : Nat :=
  match store_get_span st spanId with
  | none => 404
  | some s =>
    match store_get_trace st s.trace_id (some caller) with
    | none => 403
    | some _ =>
      if pyKwargsAccepted complete_span_params server_complete_span_kwargs then 200
      else 500

/-! ## Pagination cursors (`DynamoDBStorage.get_traces`) -/

/-- The standard base64 alphabet used by `base64.b64encode`. -/
def b64Alphabet : List Char :=
  "ABCDEFGHIJKLMNOPQRSTUVWXYZabcdefghijklmnopqrstuvwxyz0123456789+/".data

/-- Index of a character within a list (first match). -/
def idxOf : List Char → Char → Option Nat
  | [], _ => none
  | a :: rest, c => if a = c then some 0 else (idxOf rest c).map (· + 1)

/-- The base64 character of a sextet. -/
def b64Char (n : Nat) : Char := b64Alphabet.getD n 'A'

/-- The sextet of a base64 character (`none` for `=` and foreign
characters). -/
def b64Index (c : Char) : Option Nat := idxOf b64Alphabet c

/-- Models `base64.b64encode` on a byte list: three bytes become four
sextet characters; a final group of one or two bytes is padded with
`=`. -/
def b64EncodeBytes : List Nat → List Char
  | [] => []
  | [a] => [b64Char (a / 4), b64Char (a % 4 * 16), '=', '=']
  | [a, b] => [b64Char (a / 4), b64Char (a % 4 * 16 + b / 16), b64Char (b % 16 * 4), '=']
  | a :: b :: c :: rest =>
      b64Char (a / 4) :: b64Char (a % 4 * 16 + b / 16) :: b64Char (b % 16 * 4 + c / 64) ::
        b64Char (c % 64) :: b64EncodeBytes rest

/-- Group-wise base64 decoding: four characters to three bytes, with `=`
padding accepted in the final group only (a conservative model of
`binascii`: canonical encodings decode exactly, malformed padding is an
error). -/
def b64DecodeGroups : List Char → Option (List Nat)
  | [] => some []
  | w :: x :: y :: z :: rest =>
    match b64Index w, b64Index x with
    | some sw, some sx =>
      if y = '=' then
        if z = '=' ∧ rest = [] then some [sw * 4 + sx / 16] else none
      else
        match b64Index y with
        | some sy =>
          if z = '=' then
            if rest = [] then some [sw * 4 + sx / 16, sx % 16 * 16 + sy / 4] else none
          else
            match b64Index z with
            | some sz =>
                (b64DecodeGroups rest).map
                  (fun tail =>
                    (sw * 4 + sx / 16) :: (sx % 16 * 16 + sy / 4) :: (sy % 4 * 64 + sz) :: tail)
            | none => none
        | none => none
    | _, _ => none
  | _ => none

/-- Models `base64.b64decode(s)` with its default `validate=False`:
characters outside the alphabet and `=` are discarded first, then the
length must be a multiple of four, then groups are decoded. -/
def b64Decode (s : String) : Option (List Nat) :=
  if (s.data.filter (fun c => (b64Index c).isSome || c = '=')).length % 4 = 0 then
    b64DecodeGroups (s.data.filter (fun c => (b64Index c).isSome || c = '='))
  else none

/-- Models `str.encode()` for the ASCII-only strings produced by
`json.dumps` with `ensure_ascii=True`: one byte per character. -/
def strToBytes (s : String) : List Nat := s.data.map Char.toNat

/-- Models `bytes.decode("utf-8")` on the ASCII fragment: non-ASCII bytes
are treated as a decode failure. The encoding side of the cursor pipeline
only ever produces ASCII. -/
def bytesToAscii (bs : List Nat) : Option String :=
  if bs.all (fun b => b < 128) then some (String.mk (bs.map Char.ofNat)) else none

/-- A DynamoDB paging token (`LastEvaluatedKey`) for the
`project-time-index` query, as deserialized by boto3: a flat mapping of
attribute names to strings (`trace_id`, `project_id`, `start_time`). -/
abbrev PageToken := List (String × String)

/-- `json.dumps` of a paging token. -/
def dumpsToken (t : PageToken) : String :=
  jsonDumps (.vobj (t.map (fun p => (p.1, Val.vstr p.2))))

/-- The `next_cursor` built by `get_traces`:
`base64.b64encode(json.dumps(last_key).encode()).decode()`. -/
def encode_cursor (t : PageToken) : String :=
  String.mk (b64EncodeBytes (strToBytes (dumpsToken t)))

/-- JSON whitespace skipping. -/
def skipSpaces (cs : List Char) : List Char :=
  cs.dropWhile (fun c => c = ' ' ∨ c = Char.ofNat 9 ∨ c = Char.ofNat 10 ∨ c = Char.ofNat 13)

/-- Parse the body of a JSON string literal up to its closing quote. The
escape-free fragment suffices for paging tokens: the attribute values the
store produces (UUIDs, project ids, ISO timestamps) contain neither
quotes nor backslashes; an escape is a parse failure in this model. -/
def parseStrBody : List Char → List Char → Option (String × List Char)
  | [], _ => none
  | c :: rest, acc =>
    if c = '"' then some (String.mk acc.reverse, rest)
    else if c = '\\' then none
    else parseStrBody rest (c :: acc)

/-- Parse a quoted JSON string. -/
def parseQuoted : List Char → Option (String × List Char)
  | '"' :: rest => parseStrBody rest []
  | _ => none

/-- Parse the `"key": "value"` pairs of a flat JSON object, after the
opening brace. The fuel bounds the recursion; callers supply at least the
remaining length, which is always enough because every pair consumes
characters. -/
def parsePairs (fuel : Nat) (cs : List Char) : Option (List (String × String) × List Char) :=
  match fuel with
  | 0 => none
  | fuel + 1 =>
    match parseQuoted (skipSpaces cs) with
    | none => none
    | some (k, rest1) =>
      match skipSpaces rest1 with
      | [] => none
      | c2 :: rest2 =>
        if c2 = ':' then
          match parseQuoted (skipSpaces rest2) with
          | none => none
          | some (v, rest3) =>
            match skipSpaces rest3 with
            | [] => none
            | c4 :: rest4 =>
              if c4 = '\x7d' then some ([(k, v)], rest4)
              else if c4 = ',' then
                match parsePairs fuel rest4 with
                | none => none
                | some (tl, rest5) => some ((k, v) :: tl, rest5)
              else none
        else none

/-- Models `json.loads` on the flat string-to-string objects that form
paging tokens; anything outside this fragment is a parse failure. (The
real `json.loads` accepts more JSON, but the decode pipeline treats any
failure as an absent cursor, and the encoder only emits this fragment.) -/
def parseTokenChars (cs : List Char) : Option PageToken :=
  match skipSpaces cs with
  | [] => none
  | c :: rest =>
    if c = '\x7b' then
      match skipSpaces rest with
      | [] => none
      | c2 :: rest2 =>
        if c2 = '\x7d' then (if skipSpaces rest2 = [] then some [] else none)
        else
          match parsePairs (rest.length + 1) rest with
          | some (pairs, rest3) => if skipSpaces rest3 = [] then some pairs else none
          | none => none
    else none

/-- The cursor decode path of `get_traces`:
`json.loads(base64.b64decode(cursor).decode("utf-8"))`; `none` models any
exception in that pipeline. -/
def decode_cursor (c : String) : Option PageToken :=
  match b64Decode c with
  | none => none
  | some bs =>
    match bytesToAscii bs with
    | none => none
    | some s => parseTokenChars s.data

/-- The `ExclusiveStartKey` that `get_traces` passes to the store query:
present only when a (truthy) cursor was supplied and its decode pipeline
succeeded — `except Exception: pass` leaves the key absent, so the query
starts fresh from the newest record. -/
def cursor_start_key (cursor : Option String) : Option PageToken :=
  match cursor with
  | none => none
  | some c => if c = "" then none else decode_cursor c

/-- The `next_cursor` of a `get_traces` response: the encoded
`LastEvaluatedKey` when the store returned one. -/
def next_cursor_of (lastKey : Option PageToken) : Option String :=
  lastKey.map encode_cursor

/-! ## Helper lemmas -/

/-- Rebuilding a string from its characters is the identity. -/
theorem strMkData (s : String) : String.mk s.data = s := by cases s; rfl

/-- Python truncation toward zero agrees with the floor on nonnegative
rationals. -/
theorem ratFloorEqIntFloor (q : ℚ) : Rat.floor q = ⌊q⌋ := by
  rw [Rat.floor_def', Rat.floor_def]

/-- Replacing a value in place makes the key report as present whenever
it was. -/
theorem hasKey_setInPlace_self (l : List (String × Val)) (k : String) (v : Val)
    (hk : dictHasKey l k = true) : dictHasKey (setInPlace l k v) k = true := by
  unfold dictHasKey at hk ⊢
  induction l with
  | nil => simp at hk
  | cons p rest ih =>
    by_cases hp : p.1 = k
    · have hc : (p.1 == k) = true := by simp [hp]
      simp only [setInPlace]
      rw [if_pos hc]
      simp
    · have hpb : (p.1 == k) = false := by simpa using hp
      simp only [List.any_cons, hpb, Bool.false_or] at hk
      simp only [setInPlace]
      rw [if_neg (by simp [hpb])]
      simp only [List.any_cons, hpb, Bool.false_or]
      exact ih hk

/-- Setting a key makes it present. -/
theorem dictHasKey_dictSet_self (l : List (String × Val)) (k : String) (v : Val) :
    dictHasKey (dictSet l k v) k = true := by
  unfold dictSet
  by_cases hk : dictHasKey l k
  · rw [if_pos hk]; exact hasKey_setInPlace_self l k v hk
  · rw [if_neg hk]; simp [dictHasKey]

/-- In-place replacement of one key leaves the presence of another
unchanged. -/
theorem hasKey_setInPlace_ne (l : List (String × Val)) (k a : String) (v : Val)
    (h : k ≠ a) : dictHasKey (setInPlace l k v) a = dictHasKey l a := by
  unfold dictHasKey
  induction l with
  | nil => rfl
  | cons p rest ih =>
    by_cases hp : p.1 = k
    · have hc : (p.1 == k) = true := by simp [hp]
      have hka : (k == a) = false := by simpa using h
      have hpa : (p.1 == a) = false := by rw [hp]; exact hka
      simp only [setInPlace]
      rw [if_pos hc]
      simp only [List.any_cons, hka, hpa, Bool.false_or]
      exact ih
    · have hpb : (p.1 == k) = false := by simpa using hp
      simp only [setInPlace]
      rw [if_neg (by simp [hpb])]
      simp only [List.any_cons]
      rw [ih]

/-- Setting one key leaves the presence of another unchanged. -/
theorem dictHasKey_dictSet_ne (l : List (String × Val)) (k a : String) (v : Val)
    (h : k ≠ a) : dictHasKey (dictSet l k v) a = dictHasKey l a := by
  unfold dictSet
  by_cases hk : dictHasKey l k
  · rw [if_pos hk]; exact hasKey_setInPlace_ne l k a v h
  · rw [if_neg hk]
    have hka : (k == a) = false := by simpa using h
    simp [dictHasKey, hka]

/-- Looking up a key other than the replaced one. -/
theorem lookup_setInPlace_ne (l : List (String × Val)) (k a : String) (v : Val)
    (h : k ≠ a) : (setInPlace l k v).lookup a = l.lookup a := by
  induction l with
  | nil => rfl
  | cons p rest ih =>
    by_cases hp : p.1 = k
    · have hak : (a == k) = false := by simpa using (Ne.symm h)
      have hap : (a == p.1) = false := by simpa [hp] using (Ne.symm h)
      simp [setInPlace, hp, List.lookup, hak, hap, ih]
    · have hpb : (p.1 == k) = false := by simpa using hp
      by_cases hq : a = p.1
      · simp [setInPlace, hpb, List.lookup, hq]
      · have haq : (a == p.1) = false := by simpa using hq
        simp [setInPlace, hpb, List.lookup, haq, ih]

/-- Looking up a key other than the appended one. -/
theorem lookup_append_other (l : List (String × Val)) (k a : String) (v : Val)
    (h : k ≠ a) : (l ++ [(k, v)]).lookup a = l.lookup a := by
  induction l with
  | nil =>
    have hak : (a == k) = false := by simpa using (Ne.symm h)
    simp [List.lookup, hak]
  | cons p rest ih =>
    by_cases hq : a = p.1
    · simp [List.lookup, hq]
    · have haq : (a == p.1) = false := by simpa using hq
      simp [List.lookup, haq, ih]

/-- `dictSet` on one key does not change `dictGet` on another. -/
theorem dictGet_dictSet_ne (l : List (String × Val)) (k a : String) (v : Val)
    (h : k ≠ a) : dictGet (dictSet l k v) a = dictGet l a := by
  unfold dictGet dictSet
  by_cases hk : dictHasKey l k
  · rw [if_pos hk, lookup_setInPlace_ne l k a v h]
  · rw [if_neg hk, lookup_append_other l k a v h]

/-- A `SET` update expression leaves unnamed attributes untouched. -/
theorem applySet_frame (asg : List (String × Val)) :
    ∀ (item : List (String × Val)) (a : String), (∀ p ∈ asg, p.1 ≠ a) →
      dictGet (applySet item asg) a = dictGet item a := by
  induction asg with
  | nil => intro item a _; rfl
  | cons p rest ih =>
    intro item a h
    have h1 : dictGet (applySet (dictSet item p.1 p.2) rest) a
        = dictGet (dictSet item p.1 p.2) a :=
      ih (dictSet item p.1 p.2) a (fun q hq => h q (by simp [hq]))
    have h2 : dictGet (dictSet item p.1 p.2) a = dictGet item a :=
      dictGet_dictSet_ne item p.1 a p.2 (h p (by simp))
    calc dictGet (applySet item (p :: rest)) a
        = dictGet (applySet (dictSet item p.1 p.2) rest) a := rfl
      _ = dictGet item a := by rw [h1, h2]

/-! ## C10: API-key extraction -/

/-- C10. For every API-key string, `extract_project_id` returns the
remainder after the `project-` prefix when the key starts with
`project-` and the remainder is non-empty, and fails with HTTP 400 for
every key that lacks the prefix or whose remainder is empty. -/
theorem extract_project_id_spec :
    (∀ r : String, r ≠ "" → extract_project_id ("project-" ++ r) = .ok r) ∧
    (∀ k : String, pyStartsWith k "project-" = false → extract_project_id k = .error 400) ∧
    extract_project_id "project-" = .error 400 := by
  refine ⟨?_, ?_, rfl⟩
  · intro r hr
    have hdata : ("project-" ++ r).data = "project-".data ++ r.data :=
      String.data_append _ _
    have hsw : pyStartsWith ("project-" ++ r) "project-" = true := by
      simp [pyStartsWith, hdata, List.take_left]
    have hdrop : strDropN ("project-" ++ r) (strLen "project-") = r := by
      have h8 : strLen "project-" = "project-".data.length := rfl
      rw [strDropN, h8, hdata, List.drop_left, strMkData]
    unfold extract_project_id
    rw [if_pos hsw, hdrop, if_neg hr]
  · intro k hk
    unfold extract_project_id
    rw [if_neg (by simp [hk])]

/-- Witness for C10 at a concrete key and a concrete rejection. -/
theorem extract_project_id_spec_witness :
    extract_project_id ("project-" ++ "dev") = .ok "dev" ∧
    extract_project_id "nokey" = .error 400 :=
  ⟨extract_project_id_spec.1 "dev" (by decide),
   extract_project_id_spec.2.1 "nokey" (by decide)⟩

/-! ## C8: rate limiter -/

/-- C8. On each request the rate limiter first drops the caller's
timestamps older than the window; it rejects with 429 exactly when the
remaining count has reached the limit, and otherwise appends the current
timestamp — a rejected request appends nothing, so rejections do not
consume quota. -/
theorem check_rate_limit_spec (rpm : Nat) (window : ℚ) (times : List ℚ) (now : ℚ) :
    ((check_rate_limit rpm window times now).2 = some 429 ↔
      rpm ≤ (times.filter (fun t => now - t < window)).length) ∧
    ((check_rate_limit rpm window times now).2 = some 429 →
      (check_rate_limit rpm window times now).1 =
        times.filter (fun t => now - t < window)) ∧
    ((check_rate_limit rpm window times now).2 = none →
      (check_rate_limit rpm window times now).1 =
        times.filter (fun t => now - t < window) ++ [now]) := by
  unfold check_rate_limit
  by_cases h : rpm ≤ (times.filter (fun t => now - t < window)).length
  · simp [h]
  · simp [h]

/-- Witness for C8: with limit 1, window 10 s and one fresh timestamp, a
request at time 5 is rejected and consumes no quota. -/
theorem check_rate_limit_spec_witness :
    (check_rate_limit 1 10 [0] 5).2 = some 429 ∧
    (check_rate_limit 1 10 [0] 5).1 = List.filter (fun t => 5 - t < 10) [0] := by
  have hf : List.filter (fun t : ℚ => 5 - t < 10) [0] = [0] := by
    simp only [List.filter_cons, List.filter_nil]
    norm_num
  have hlen : 1 ≤ (List.filter (fun t : ℚ => 5 - t < 10) [0]).length := by
    rw [hf]; simp
  have h := check_rate_limit_spec 1 10 [0] 5
  exact ⟨h.1.mpr hlen, h.2.1 (h.1.mpr hlen)⟩

/-! ## C1 and C2: the completion endpoints -/

/-- A store with one trace `T` owned by project `dev` and one span `S`
inside it. -/
def sampleStore : Store :=
  ⟨[("T", ⟨"dev", "2025-01-01T00:00:00+00:00"⟩)],
   [("S", ⟨"T", "2025-01-01T00:00:01+00:00"⟩)]⟩

/-- C1. The claim promises 200 `{span_id, status: "completed"}` for every
valid span-completion request by the owner; the handler instead passes
the keyword argument `cost_usd` to `DynamoDBStorage.complete_span`, which
has no such parameter, so every such request raises `TypeError` and is
answered 500. -/
theorem complete_span_typeerror :
    pyKwargsAccepted complete_span_params server_complete_span_kwargs = false ∧
    complete_span_status sampleStore "dev" "S" = 500 := by decide

/-- C2. For a caller from project `b` and a trace owned by project `a`
(here the owner is `dev`), getting the trace, listing its spans, creating
a span and completing the trace all answer 404 — but completing one of
its spans answers 403 with a body that reveals the span and its foreign
ownership, contradicting the claim that every operation returns 404. -/
theorem cross_project_leak :
    get_trace_status sampleStore "b" "T" = 404 ∧
    create_span_status sampleStore "b" "T" = 404 ∧
    complete_trace_status sampleStore "b" "T" = 404 ∧
    store_get_spans sampleStore "T" (some "b") = [] ∧
    complete_span_status sampleStore "b" "S" = 403 := by decide

/-! ## C5: single-cut string truncation -/

/-- C5. For every string field passed to `truncate_string` with ceiling
`m` (every call site passes `MAX_STRING_LENGTH = 10000`, so `50 ≤ m`):
`None` and the empty string come back unchanged, as does any string of
length at most `m`; a longer string comes back as its first `m - 50`
characters followed by `"\n... [truncated, was K chars]"` where `K` is
the original length. -/
theorem truncate_string_spec (m : Nat) (hm : 50 ≤ m) :
    truncate_string none m = none ∧
    (∀ v : String, strLen v ≤ m → truncate_string (some v) m = some v) ∧
    (∀ v : String, m < strLen v →
      truncate_string (some v) m =
        some (strTakeN v (m - 50) ++ stringMarker (strLen v))) := by
  refine ⟨rfl, ?_, ?_⟩
  · intro v hv
    simp only [truncate_string]
    by_cases h0 : strLen v = 0
    · rw [if_pos h0]
    · rw [if_neg h0, if_pos hv]
  · intro v hv
    simp only [truncate_string]
    have h0 : ¬ strLen v = 0 := by omega
    have h1 : ¬ strLen v ≤ m := by omega
    rw [if_neg h0, if_neg h1]
    have hslice : pySliceTo v ((m : Int) - 50) = strTakeN v (m - 50) := by
      unfold pySliceTo
      rw [if_pos (by omega)]
      congr 1
      omega
    rw [hslice]

/-- Witness for C5 with ceiling 60 and a 61-character string: the first
10 characters survive, then the marker. -/
theorem truncate_string_spec_witness :
    50 ≤ 60 ∧
    truncate_string (some (String.mk (List.replicate 61 'a'))) 60 =
      some (strTakeN (String.mk (List.replicate 61 'a')) (60 - 50) ++
        stringMarker (strLen (String.mk (List.replicate 61 'a')))) :=
  ⟨by decide,
   (truncate_string_spec 60 (by decide)).2.2 (String.mk (List.replicate 61 'a'))
     (by decide)⟩

/-! ## C6: completion durations -/

/-- C6. For every completion whose stored `start_time` parses and whose
`end_time` is at or after it, the stored `duration_ms` equals
`⌊(end_time − start_time) × 1000⌋` (timestamps in seconds, here held as
integer microsecond counts) and is nonnegative. -/
theorem completion_duration_spec (startUs endUs : Int) (h : startUs ≤ endUs) :
    completion_duration_ms startUs endUs =
      ⌊(endUs - startUs : ℚ) / 1000000 * 1000⌋ ∧
    0 ≤ completion_duration_ms startUs endUs := by
  have hq : 0 ≤ ((endUs - startUs : ℚ) / 1000000 * 1000) := by
    have hsub : (0 : ℚ) ≤ (endUs - startUs : ℚ) := by
      have : (startUs : ℚ) ≤ (endUs : ℚ) := by exact_mod_cast h
      linarith
    positivity
  have heq : completion_duration_ms startUs endUs =
      ⌊(endUs - startUs : ℚ) / 1000000 * 1000⌋ := by
    unfold completion_duration_ms pyIntOfRat
    rw [if_pos hq, ratFloorEqIntFloor]
  refine ⟨heq, ?_⟩
  rw [heq]
  exact Int.floor_nonneg.mpr hq

/-- Witness for C6 with a 1500-microsecond interval: the duration floors
to one millisecond. -/
theorem completion_duration_spec_witness :
    (0 : Int) ≤ 1500 ∧
    (completion_duration_ms 0 1500 = ⌊((1500 : Int) - (0 : Int) : ℚ) / 1000000 * 1000⌋ ∧
      0 ≤ completion_duration_ms 0 1500) ∧
    completion_duration_ms 0 1500 = 1 := by
  have hmain := completion_duration_spec 0 1500 (by decide)
  refine ⟨by decide, hmain, ?_⟩
  rw [hmain.1]
  have h32 : ((1500 : Int) - (0 : Int) : ℚ) / 1000000 * 1000 = 3 / 2 := by norm_num
  rw [h32, Int.floor_eq_iff]
  norm_num

/-! ## C7: completion update expressions -/

/-- The `complete_trace` handler (`service/src/server.py` lines 229-234)
forwards only `output` to `storage.complete_trace`; the request's
`metadata` field is never passed on. -/
def server_trace_complete_output (output : Option String) (_metadata : Option Val) :
    Option String :=
  output

/-- C7 counterexample. A trace completion that supplies both `output` and
`metadata` produces a `SET` expression with exactly `end_time`,
`duration_ms` and `output`: the supplied `metadata` never reaches the
update, and no span update clause can mention `cost_usd` because
`DynamoDBStorage.complete_span` has no such parameter. -/
theorem completion_update_metadata_cex :
    server_trace_complete_output (some "ok") (some (.vobj [("note", .vstr "v")])) =
      some "ok" ∧
    trace_update_parts (some "ok") =
      ["end_time = :end_time", "duration_ms = :duration_ms", "output = :output"] ∧
    "metadata = :metadata" ∉ trace_update_parts (some "ok") ∧
    "cost_usd = :cost_usd" ∉
      span_update_parts (some (.vobj [])) (some "e") (some 1) (some 2) ∧
    pyKwargsAccepted complete_span_params ["cost_usd"] = false := by
  refine ⟨rfl, rfl, by decide, by decide, by decide⟩

/-- C7 amended. Every span completion builds a `SET` expression with
exactly `end_time`, `duration_ms`, and each of `output_data`, `error`
(escaped as `#error_field`), `tokens_input`, `tokens_output` that is
supplied non-`None`; every trace completion builds one with exactly
`end_time`, `duration_ms`, and `output` when it is supplied non-`None`
and non-empty (Python truthiness); `cost_usd` and `metadata` are never
part of a completion update; and applying a `SET` expression leaves every
attribute it does not name unchanged, so re-completing overwrites only
the fields written. -/
theorem completion_update_expr_spec (od : Option Val) (er : Option String)
    (ti tou : Option Int) (out : Option String) :
    ("end_time = :end_time" ∈ span_update_parts od er ti tou ∧
     "duration_ms = :duration_ms" ∈ span_update_parts od er ti tou) ∧
    ("output_data = :output_data" ∈ span_update_parts od er ti tou ↔ od ≠ none) ∧
    ("#error_field = :error" ∈ span_update_parts od er ti tou ↔ er ≠ none) ∧
    ("tokens_input = :tokens_input" ∈ span_update_parts od er ti tou ↔ ti ≠ none) ∧
    ("tokens_output = :tokens_output" ∈ span_update_parts od er ti tou ↔ tou ≠ none) ∧
    span_expr_attr_names er = (if er.isSome then [("#error_field", "error")] else []) ∧
    (∀ c ∈ span_update_parts od er ti tou,
      c ∈ ["end_time = :end_time", "duration_ms = :duration_ms",
           "output_data = :output_data", "#error_field = :error",
           "tokens_input = :tokens_input", "tokens_output = :tokens_output"]) ∧
    ("end_time = :end_time" ∈ trace_update_parts out ∧
     "duration_ms = :duration_ms" ∈ trace_update_parts out) ∧
    ("output = :output" ∈ trace_update_parts out ↔ (out ≠ none ∧ out ≠ some "")) ∧
    (∀ c ∈ trace_update_parts out,
      c ∈ ["end_time = :end_time", "duration_ms = :duration_ms", "output = :output"]) ∧
    (∀ (item : List (String × Val)) (asg : List (String × Val)) (a : String),
      (∀ p ∈ asg, p.1 ≠ a) → dictGet (applySet item asg) a = dictGet item a) := by
  refine ⟨?_, ?_, ?_, ?_, ?_, rfl, ?_, ?_, ?_, ?_, ?_⟩
  · rcases od with _ | x <;> rcases er with _ | y <;> rcases ti with _ | z <;>
      rcases tou with _ | w <;> simp [span_update_parts]
  · rcases od with _ | x <;> rcases er with _ | y <;> rcases ti with _ | z <;>
      rcases tou with _ | w <;> simp [span_update_parts]
  · rcases od with _ | x <;> rcases er with _ | y <;> rcases ti with _ | z <;>
      rcases tou with _ | w <;> simp [span_update_parts]
  · rcases od with _ | x <;> rcases er with _ | y <;> rcases ti with _ | z <;>
      rcases tou with _ | w <;> simp [span_update_parts]
  · rcases od with _ | x <;> rcases er with _ | y <;> rcases ti with _ | z <;>
      rcases tou with _ | w <;> simp [span_update_parts]
  · intro c hc
    rcases od with _ | x <;> rcases er with _ | y <;> rcases ti with _ | z <;>
      rcases tou with _ | w <;> simp [span_update_parts] at hc <;> simp <;> tauto
  · rcases out with _ | o
    · simp [trace_update_parts]
    · by_cases ho : o = "" <;> simp [trace_update_parts, ho]
  · rcases out with _ | o
    · simp [trace_update_parts]
    · by_cases ho : o = "" <;> simp [trace_update_parts, ho]
  · intro c hc
    rcases out with _ | o
    · simp [trace_update_parts] at hc
      simp
      tauto
    · by_cases ho : o = "" <;> simp [trace_update_parts, ho] at hc <;> simp <;> tauto
  · exact fun item asg a h => applySet_frame asg item a h

/-! ## C3: the truncate_dict pipeline -/

/-- C3 counterexample. For the ceiling 5 and the nonempty payload
`{"a": "bbbbb"}` (14 serialized characters, no `_truncated` key), even
dropping every key cannot shrink the dict below the ceiling — the
`[dropped: 7 bytes]` replacement and the sentinel keys are larger than
what they replace — so the pipeline returns a dict whose serialization
exceeds 5, refuting the claimed bound `len(serialize(p)) ≤ m`. -/
theorem truncate_dict_ceiling_cex :
    [("a", Val.vstr "bbbbb")] ≠ ([] : List (String × Val)) ∧
    dictHasKey [("a", Val.vstr "bbbbb")] "_truncated" = false ∧
    5 < dumpsLen (.vobj (truncate_dict [("a", Val.vstr "bbbbb")] 5)) :=
  ⟨by simp, by decide, by decide⟩

/-- C3 amended. For every non-empty payload without the sentinel key
`_truncated`: a payload that already fits its ceiling is returned
unchanged (hence within the ceiling), and a payload that does not fit
comes back modified and carrying `_truncated` — but the returned
serialization is not bounded by the ceiling in general: strategy 2 adds
the sentinel after its size check, and strategy 3 stops when no droppable
key remains. -/
theorem truncate_dict_spec (data : List (String × Val)) (m : Nat)
    (hne : data ≠ []) (hkey : dictHasKey data "_truncated" = false) :
    (dumpsLen (.vobj data) ≤ m → truncate_dict data m = data) ∧
    (m < dumpsLen (.vobj data) →
      dictHasKey (truncate_dict data m) "_truncated" = true ∧
      truncate_dict data m ≠ data) := by
  obtain ⟨p, rest, rfl⟩ : ∃ p rest, data = p :: rest := by
    cases data with
    | nil => exact absurd rfl hne
    | cons p rest => exact ⟨p, rest, rfl⟩
  constructor
  · intro hle
    simp only [truncate_dict]
    rw [if_pos hle]
  · intro hgt
    have hnle : ¬ dumpsLen (.vobj (p :: rest)) ≤ m := by omega
    have hres : dictHasKey (truncate_dict (p :: rest) m) "_truncated" = true := by
      simp only [truncate_dict]
      rw [if_neg hnle]
      by_cases h2 : dumpsLen (.vobj (tsvObj 1000 (p :: rest))) ≤ m
      · rw [if_pos h2]
        exact dictHasKey_dictSet_self _ _ _
      · rw [if_neg h2]
        rw [dictHasKey_dictSet_ne _ _ _ _ (by decide)]
        exact dictHasKey_dictSet_self _ _ _
    refine ⟨hres, fun he => ?_⟩
    rw [he] at hres
    rw [hres] at hkey
    exact Bool.noConfusion hkey

/-- Witness for C3: a fitting payload is returned unchanged, a payload
over its ceiling comes back tagged `_truncated`. -/
theorem truncate_dict_spec_witness :
    truncate_dict [("a", Val.vstr "x")] 100 = [("a", Val.vstr "x")] ∧
    dictHasKey (truncate_dict [("a", Val.vstr "x")] 3) "_truncated" = true := by
  have h1 := truncate_dict_spec [("a", Val.vstr "x")] 100 (by simp) (by decide)
  have h2 := truncate_dict_spec [("a", Val.vstr "x")] 3 (by simp) (by decide)
  exact ⟨h1.1 (by decide), (h2.2 (by decide)).1⟩

/-! ## C4: inner-string truncation -/

/-- `_truncate_string_values` rewrites a dict entry by entry. -/
theorem tsvObj_eq_map (cap : Nat) (l : List (String × Val)) :
    tsvObj cap l = l.map (fun p => (p.1, tsvEntry cap p.2)) := by
  induction l with
  | nil => rfl
  | cons p rest ih =>
    obtain ⟨k, v⟩ := p
    simp [tsvObj, ih]

/-- The list branch of `_truncate_string_values` is an element-wise map. -/
theorem tsvArr_eq_map (cap : Nat) (xs : List Val) :
    tsvArr cap xs = xs.map (tsvElem cap) := by
  induction xs with
  | nil => rfl
  | cons x rest ih => simp [tsvArr, ih]

/-- Looking up after a value-wise map applies the map to the result. -/
theorem lookup_map_values (f : Val → Val) (l : List (String × Val)) (k : String) :
    (l.map (fun p => (p.1, f p.2))).lookup k = (l.lookup k).map f := by
  induction l with
  | nil => rfl
  | cons p rest ih =>
    obtain ⟨a, b⟩ := p
    by_cases h : k = a
    · simp [List.lookup, h]
    · have hb : (k == a) = false := by simpa using h
      simp [List.lookup, hb, ih]

/-- A 1200-character payload string. -/
def sampleLong : String := String.mk (List.replicate 1200 'x')

set_option maxRecDepth 40000 in
/-- C4 counterexample. A 1200-character string inside a list element is
replaced by its first 1000 characters plus a bare `"..."` — not the
`"... [truncated, was K chars]"` marker the claim requires for strings
inside list elements. -/
theorem tsv_list_marker_cex :
    tsvObj 1000 [("k", Val.varr [Val.vstr sampleLong])] =
      [("k", Val.varr [Val.vstr (strTakeN sampleLong 1000 ++ "...")])] ∧
    strTakeN sampleLong 1000 ++ "..." ≠
      strTakeN sampleLong 1000 ++ dictMarker (strLen sampleLong) := by
  constructor
  · rfl
  · intro h
    exact absurd (congrArg strLen h) (by decide)

/-- C4 amended. In the inner-string-truncation strategy, a string value
of the mapping (also inside nested mappings, which recurse) longer than
the cap is replaced by its first `cap` characters plus
`"... [truncated, was K chars]"`; shorter strings and non-string values
are unchanged; but inside list elements a long string receives only a
bare `"..."` (no length marker), a dict element recurses, and any other
element — including a nested list — is left untouched. -/
theorem tsv_spec (cap : Nat) (l : List (String × Val)) (k : String) :
    (∀ s, l.lookup k = some (.vstr s) →
      (tsvObj cap l).lookup k =
        some (.vstr (if cap < strLen s then strTakeN s cap ++ dictMarker (strLen s)
                     else s))) ∧
    (∀ d, l.lookup k = some (.vobj d) →
      (tsvObj cap l).lookup k = some (.vobj (tsvObj cap d))) ∧
    (∀ xs, l.lookup k = some (.varr xs) →
      (tsvObj cap l).lookup k = some (.varr (xs.map (tsvElem cap)))) ∧
    (∀ s, cap < strLen s → tsvElem cap (.vstr s) = .vstr (strTakeN s cap ++ "...")) ∧
    (∀ s, strLen s ≤ cap → tsvElem cap (.vstr s) = .vstr s) ∧
    (∀ d, tsvElem cap (.vobj d) = .vobj (tsvObj cap d)) ∧
    (∀ xs, tsvElem cap (.varr xs) = .varr xs) := by
  refine ⟨?_, ?_, ?_, ?_, ?_, fun d => rfl, fun xs => rfl⟩
  · intro s hs
    rw [tsvObj_eq_map, lookup_map_values, hs]
    have hmap : (some (Val.vstr s)).map (tsvEntry cap) = some (tsvEntry cap (.vstr s)) := rfl
    rw [hmap]
    by_cases h : cap < strLen s
    · simp [tsvEntry, h]
    · simp [tsvEntry, h]
  · intro d hd
    rw [tsvObj_eq_map, lookup_map_values, hd]
    simp [tsvEntry]
  · intro xs hx
    rw [tsvObj_eq_map, lookup_map_values, hx]
    simp [tsvEntry, tsvArr_eq_map]
  · intro s hs
    simp [tsvElem, hs]
  · intro s hs
    have h : ¬ cap < strLen s := by omega
    simp [tsvElem, h]

/-- Witness for C4: a long top-level string receives the in-dict marker. -/
theorem tsv_spec_witness :
    ([("p", Val.vstr sampleLong)].lookup "p" = some (Val.vstr sampleLong)) ∧
    (tsvObj 1000 [("p", Val.vstr sampleLong)]).lookup "p" =
      some (Val.vstr (if 1000 < strLen sampleLong then
        strTakeN sampleLong 1000 ++ dictMarker (strLen sampleLong) else sampleLong)) :=
  ⟨rfl, (tsv_spec 1000 [("p", Val.vstr sampleLong)] "p").1 sampleLong rfl⟩

/-! ## C9: cursor round trip — plain strings and ASCII serialization -/

/-- Characters the store emits inside paging-token strings: printable
ASCII without quote or backslash (UUIDs, project ids, ISO timestamps all
qualify). -/
def plainCharB (c : Char) : Bool :=
  decide (32 ≤ c.toNat ∧ c.toNat ≤ 126 ∧ c ≠ '"' ∧ c ≠ '\\')

/-- A string of plain characters. -/
def plainStrB (s : String) : Bool := s.data.all plainCharB

/-- A paging token whose keys and values are plain strings. -/
def plainTokenB (t : PageToken) : Bool :=
  t.all (fun p => plainStrB p.1 && plainStrB p.2)

/-- A plain character passes through the `json.dumps` escaper unchanged. -/
theorem jsonEscapeChar_plain {c : Char} (h : plainCharB c = true) :
    jsonEscapeChar c = [c] := by
  obtain ⟨h1, h2, h3, h4⟩ := of_decide_eq_true h
  have e8 : c ≠ Char.ofNat 8 := fun hc => absurd h1 (by subst hc; decide)
  have e9 : c ≠ Char.ofNat 9 := fun hc => absurd h1 (by subst hc; decide)
  have e10 : c ≠ Char.ofNat 10 := fun hc => absurd h1 (by subst hc; decide)
  have e12 : c ≠ Char.ofNat 12 := fun hc => absurd h1 (by subst hc; decide)
  have e13 : c ≠ Char.ofNat 13 := fun hc => absurd h1 (by subst hc; decide)
  have erange : ¬ (c.toNat < 32 ∨ 126 < c.toNat) := by omega
  unfold jsonEscapeChar
  rw [if_neg h3, if_neg h4, if_neg e8, if_neg e9, if_neg e10, if_neg e12, if_neg e13,
    if_neg erange]

/-- Escaping a list of plain characters is the identity. -/
theorem escapeChars_plain (l : List Char) :
    (∀ c ∈ l, plainCharB c = true) → escapeChars l = l := by
  induction l with
  | nil => intro _; rfl
  | cons c rest ih =>
    intro hl
    have h1 := jsonEscapeChar_plain (hl c (List.mem_cons_self c rest))
    have h2 := ih (fun d hd => hl d (List.mem_cons_of_mem c hd))
    simp [escapeChars, h1, h2]

/-- The JSON literal of a plain string is just the quoted body. -/
theorem jsonQuote_plain (s : String) (h : plainStrB s = true) :
    jsonQuote s = '"' :: s.data ++ ['"'] := by
  unfold jsonQuote
  rw [escapeChars_plain s.data (fun c hc => List.all_eq_true.mp h c hc)]

/-- Plain characters are ASCII. -/
theorem plainChar_ascii {c : Char} (h : plainCharB c = true) : c.toNat < 128 := by
  obtain ⟨h1, h2, _, _⟩ := of_decide_eq_true h
  omega

/-- The JSON literal of a plain string is ASCII. -/
theorem jsonQuote_ascii (s : String) (h : plainStrB s = true) :
    ∀ c ∈ jsonQuote s, c.toNat < 128 := by
  rw [jsonQuote_plain s h]
  intro c hc
  rcases List.mem_cons.mp hc with rfl | hc2
  · decide
  · rcases List.mem_append.mp hc2 with hc3 | hc3
    · exact plainChar_ascii (List.all_eq_true.mp h c hc3)
    · rcases List.mem_singleton.mp hc3 with rfl
      decide

/-- The serialized entries of a plain paging token are ASCII. -/
theorem dumpObjToken_ascii :
    ∀ (t : PageToken), plainTokenB t = true →
      ∀ c ∈ dumpObj (t.map (fun p => (p.1, Val.vstr p.2))), c.toNat < 128
  | [], _, c, hc => by simp [dumpObj] at hc
  | [(k, v)], h, c, hc => by
    have hk : plainStrB k = true := by
      simp only [plainTokenB, List.all_cons, List.all_nil, Bool.and_true,
        Bool.and_eq_true] at h
      exact h.1
    have hv : plainStrB v = true := by
      simp only [plainTokenB, List.all_cons, List.all_nil, Bool.and_true,
        Bool.and_eq_true] at h
      exact h.2
    simp only [List.map_cons, List.map_nil, dumpObj, dumpVal] at hc
    rcases List.mem_append.mp hc with hc1 | hc1
    · exact jsonQuote_ascii k hk c hc1
    · rcases List.mem_cons.mp hc1 with rfl | hc2
      · decide
      · rcases List.mem_cons.mp hc2 with rfl | hc3
        · decide
        · exact jsonQuote_ascii v hv c hc3
  | (k, v) :: e :: tl, h, c, hc => by
    have hk : plainStrB k = true := by
      simp only [plainTokenB, List.all_cons, Bool.and_eq_true] at h
      exact h.1.1
    have hv : plainStrB v = true := by
      simp only [plainTokenB, List.all_cons, Bool.and_eq_true] at h
      exact h.1.2
    have htl : plainTokenB (e :: tl) = true := by
      simp only [plainTokenB, List.all_cons, Bool.and_eq_true] at h ⊢
      exact ⟨h.2.1, h.2.2⟩
    simp only [List.map_cons, dumpObj, dumpVal] at hc
    rcases List.mem_append.mp hc with hc1 | hc1
    · rcases List.mem_append.mp hc1 with hc2 | hc2
      · exact jsonQuote_ascii k hk c hc2
      · rcases List.mem_cons.mp hc2 with rfl | hc3
        · decide
        · rcases List.mem_cons.mp hc3 with rfl | hc4
          · decide
          · exact jsonQuote_ascii v hv c hc4
    · rcases List.mem_cons.mp hc1 with rfl | hc2
      · decide
      · rcases List.mem_cons.mp hc2 with rfl | hc3
        · decide
        · exact dumpObjToken_ascii (e :: tl) htl c (by
            simpa [List.map_cons] using hc3)

/-- The full serialization of a plain paging token is ASCII. -/
theorem dumpsToken_ascii (t : PageToken) (h : plainTokenB t = true) :
    ∀ c ∈ (dumpsToken t).data, c.toNat < 128 := by
  intro c hc
  have hdata : (dumpsToken t).data =
      '\x7b' :: (dumpObj (t.map fun p => (p.1, Val.vstr p.2)) ++ ['\x7d']) := rfl
  rw [hdata] at hc
  rcases List.mem_cons.mp hc with rfl | hc2
  · decide
  · rcases List.mem_append.mp hc2 with hc3 | hc3
    · exact dumpObjToken_ascii t h c hc3
    · rcases List.mem_singleton.mp hc3 with rfl
      decide

/-! ## C9: base64 round trip -/

/-- Every sextet maps into the alphabet and back. -/
theorem b64Char_spec : ∀ v, v < 64 → b64Index (b64Char v) = some v ∧ b64Char v ≠ '=' := by
  decide

/-- Every character of an encoding is in the alphabet or padding. -/
theorem b64Encode_allowed :
    ∀ (bs : List Nat), (∀ x ∈ bs, x < 256) →
      ∀ c ∈ b64EncodeBytes bs, ((b64Index c).isSome || c = '=') = true
  | [], _, c, hc => by simp [b64EncodeBytes] at hc
  | [a], h, c, hc => by
    have ha : a < 256 := h a (by simp)
    simp only [b64EncodeBytes] at hc
    rcases List.mem_cons.mp hc with rfl | hc1
    · simp [(b64Char_spec (a / 4) (by omega)).1]
    · rcases List.mem_cons.mp hc1 with rfl | hc2
      · simp [(b64Char_spec (a % 4 * 16) (by omega)).1]
      · rcases List.mem_cons.mp hc2 with rfl | hc3
        · simp
        · rcases List.mem_singleton.mp hc3 with rfl
          simp
  | [a, b], h, c, hc => by
    have ha : a < 256 := h a (by simp)
    have hb : b < 256 := h b (by simp)
    simp only [b64EncodeBytes] at hc
    rcases List.mem_cons.mp hc with rfl | hc1
    · simp [(b64Char_spec (a / 4) (by omega)).1]
    · rcases List.mem_cons.mp hc1 with rfl | hc2
      · simp [(b64Char_spec (a % 4 * 16 + b / 16) (by omega)).1]
      · rcases List.mem_cons.mp hc2 with rfl | hc3
        · simp [(b64Char_spec (b % 16 * 4) (by omega)).1]
        · rcases List.mem_singleton.mp hc3 with rfl
          simp
  | a :: b :: d :: rest, h, c, hc => by
    have ha : a < 256 := h a (by simp)
    have hb : b < 256 := h b (by simp)
    have hd : d < 256 := h d (by simp)
    simp only [b64EncodeBytes] at hc
    rcases List.mem_cons.mp hc with rfl | hc1
    · simp [(b64Char_spec (a / 4) (by omega)).1]
    · rcases List.mem_cons.mp hc1 with rfl | hc2
      · simp [(b64Char_spec (a % 4 * 16 + b / 16) (by omega)).1]
      · rcases List.mem_cons.mp hc2 with rfl | hc3
        · simp [(b64Char_spec (b % 16 * 4 + d / 64) (by omega)).1]
        · rcases List.mem_cons.mp hc3 with rfl | hc4
          · simp [(b64Char_spec (d % 64) (by omega)).1]
          · exact b64Encode_allowed rest (fun x hx => h x (by simp [hx])) c hc4

/-- Encodings come in groups of four characters. -/
theorem b64Encode_len : ∀ (bs : List Nat), (b64EncodeBytes bs).length % 4 = 0
  | [] => by
    have h0 : (b64EncodeBytes []).length = 0 := rfl
    omega
  | [a] => by
    have h4 : (b64EncodeBytes [a]).length = 4 := rfl
    omega
  | [a, b] => by
    have h4 : (b64EncodeBytes [a, b]).length = 4 := rfl
    omega
  | a :: b :: d :: rest => by
    have ih := b64Encode_len rest
    simp only [b64EncodeBytes, List.length_cons]
    omega

/-- Decoding the groups of a canonical encoding restores the bytes. -/
theorem b64DecodeGroups_encode :
    ∀ (bs : List Nat), (∀ x ∈ bs, x < 256) →
      b64DecodeGroups (b64EncodeBytes bs) = some bs
  | [], _ => rfl
  | [a], h => by
    have ha : a < 256 := h a (by simp)
    have h1 := (b64Char_spec (a / 4) (by omega)).1
    have h2 := (b64Char_spec (a % 4 * 16) (by omega)).1
    simp only [b64EncodeBytes, b64DecodeGroups, h1, h2]
    simp
    omega
  | [a, b], h => by
    have ha : a < 256 := h a (by simp)
    have hb : b < 256 := h b (by simp)
    have h1 := (b64Char_spec (a / 4) (by omega)).1
    have h2 := (b64Char_spec (a % 4 * 16 + b / 16) (by omega)).1
    have h3 := b64Char_spec (b % 16 * 4) (by omega)
    simp only [b64EncodeBytes, b64DecodeGroups, h1, h2, h3.1]
    rw [if_neg h3.2]
    simp
    constructor <;> omega
  | a :: b :: d :: rest, h => by
    have ha : a < 256 := h a (by simp)
    have hb : b < 256 := h b (by simp)
    have hd : d < 256 := h d (by simp)
    have h1 := (b64Char_spec (a / 4) (by omega)).1
    have h2 := (b64Char_spec (a % 4 * 16 + b / 16) (by omega)).1
    have h3 := b64Char_spec (b % 16 * 4 + d / 64) (by omega)
    have h4 := b64Char_spec (d % 64) (by omega)
    have ih := b64DecodeGroups_encode rest (fun x hx => h x (by simp [hx]))
    simp only [b64EncodeBytes, b64DecodeGroups, h1, h2, h3.1, h4.1]
    rw [if_neg h3.2, if_neg h4.2, ih]
    simp
    refine ⟨by omega, by omega, by omega⟩

/-- Decoding an encoded byte list through the full `b64decode` model
restores the bytes. -/
theorem b64Decode_encode (bs : List Nat) (h : ∀ x ∈ bs, x < 256) :
    b64Decode (String.mk (b64EncodeBytes bs)) = some bs := by
  unfold b64Decode
  have hdata : (String.mk (b64EncodeBytes bs)).data = b64EncodeBytes bs := rfl
  rw [hdata]
  rw [List.filter_eq_self.mpr (b64Encode_allowed bs h)]
  rw [if_pos (b64Encode_len bs)]
  exact b64DecodeGroups_encode bs h

/-- The bytes of an ASCII string are below 256. -/
theorem strToBytes_lt (s : String) (h : ∀ c ∈ s.data, c.toNat < 128) :
    ∀ x ∈ strToBytes s, x < 256 := by
  intro x hx
  simp only [strToBytes, List.mem_map] at hx
  obtain ⟨c, hc, rfl⟩ := hx
  have := h c hc
  omega

/-- UTF-8 decoding undoes encoding on ASCII strings. -/
theorem bytesToAscii_strToBytes (s : String) (h : ∀ c ∈ s.data, c.toNat < 128) :
    bytesToAscii (strToBytes s) = some s := by
  unfold bytesToAscii strToBytes
  rw [if_pos]
  · have hmap : (s.data.map Char.toNat).map Char.ofNat = s.data := by
      rw [List.map_map]
      calc s.data.map (Char.ofNat ∘ Char.toNat)
          = s.data.map id := List.map_congr_left (fun c _ => Char.ofNat_toNat c)
        _ = s.data := List.map_id s.data
    rw [hmap, strMkData]
  · rw [List.all_eq_true]
    intro b hb
    simp only [List.mem_map] at hb
    obtain ⟨c, hc, rfl⟩ := hb
    simpa using Nat.lt_of_lt_of_le (h c hc) (by omega)

/-! ## C9: parser round trip -/

/-- Parsing a plain string body stops exactly at the closing quote. -/
theorem parseStrBody_plain :
    ∀ (l acc rest : List Char), (∀ c ∈ l, plainCharB c = true) →
      parseStrBody (l ++ '"' :: rest) acc = some (String.mk (acc.reverse ++ l), rest)
  | [], acc, rest, _ => by
    simp [parseStrBody]
  | c :: l, acc, rest, h => by
    have hc := of_decide_eq_true (h c (List.mem_cons_self c l))
    simp only [List.cons_append, parseStrBody]
    rw [if_neg hc.2.2.1, if_neg hc.2.2.2]
    have hrec := parseStrBody_plain l (c :: acc) rest
      (fun d hd => h d (List.mem_cons_of_mem c hd))
    simp only [List.append_eq] at hrec ⊢
    rw [hrec]
    simp

/-- Parsing the serialized form of a plain string returns that string. -/
theorem parseQuoted_quote (s : String) (rest : List Char) (h : plainStrB s = true) :
    parseQuoted (jsonQuote s ++ rest) = some (s, rest) := by
  rw [jsonQuote_plain s h]
  have hsh : (('"' :: s.data ++ ['"']) ++ rest) = '"' :: (s.data ++ '"' :: rest) := by
    simp
  rw [hsh]
  simp only [parseQuoted]
  rw [parseStrBody_plain s.data [] rest (fun c hc => List.all_eq_true.mp h c hc)]
  simp [strMkData]

/-- Skipping whitespace does nothing before a non-space character. -/
theorem skipSpaces_cons_not (c : Char) (cs : List Char)
    (h : ¬(c = ' ' ∨ c = Char.ofNat 9 ∨ c = Char.ofNat 10 ∨ c = Char.ofNat 13)) :
    skipSpaces (c :: cs) = c :: cs := by
  simp only [skipSpaces, List.dropWhile_cons]
  rw [if_neg (by simpa using h)]

/-- Skipping whitespace consumes a leading space. -/
theorem skipSpaces_space (cs : List Char) : skipSpaces (' ' :: cs) = skipSpaces cs := by
  simp [skipSpaces, List.dropWhile_cons]

/-- A serialized string literal starts with a quote, not whitespace. -/
theorem skipSpaces_jsonQuote (s : String) (X : List Char) :
    skipSpaces (jsonQuote s ++ X) = jsonQuote s ++ X := by
  unfold jsonQuote
  rw [List.cons_append]
  exact skipSpaces_cons_not _ _ (by decide)

/-- `parsePairs` ignores a leading space. -/
theorem parsePairs_space (fuel : Nat) (cs : List Char) :
    parsePairs fuel (' ' :: cs) = parsePairs fuel cs := by
  cases fuel with
  | zero => rfl
  | succ f => simp only [parsePairs, skipSpaces_space]

/-- Parsing the serialized entries of a plain nonempty token restores the
token and stops at the closing brace. -/
theorem parsePairs_dumpObj :
    ∀ (t : PageToken) (fuel : Nat) (rest : List Char),
      plainTokenB t = true → t ≠ [] → t.length ≤ fuel →
      parsePairs fuel
        (dumpObj (t.map (fun p => (p.1, Val.vstr p.2))) ++ '\x7d' :: rest) =
        some (t, rest)
  | [], _, _, _, hne, _ => absurd rfl hne
  | [(k, v)], fuel, rest, hp, _, hf => by
    obtain ⟨f, rfl⟩ : ∃ f, fuel = f + 1 := ⟨fuel - 1, by simp at hf; omega⟩
    have hk : plainStrB k = true := by
      simp only [plainTokenB, List.all_cons, List.all_nil, Bool.and_true,
        Bool.and_eq_true] at hp
      exact hp.1
    have hv : plainStrB v = true := by
      simp only [plainTokenB, List.all_cons, List.all_nil, Bool.and_true,
        Bool.and_eq_true] at hp
      exact hp.2
    have hshape :
        dumpObj ([(k, v)].map (fun p => (p.1, Val.vstr p.2))) ++ '\x7d' :: rest =
          jsonQuote k ++ (':' :: ' ' :: (jsonQuote v ++ '\x7d' :: rest)) := by
      simp [dumpObj, dumpVal, List.append_assoc]
    rw [hshape]
    simp only [parsePairs, skipSpaces_jsonQuote, parseQuoted_quote k _ hk]
    rw [skipSpaces_cons_not ':' _ (by decide)]
    simp only [skipSpaces_space, skipSpaces_jsonQuote, parseQuoted_quote v _ hv]
    rw [skipSpaces_cons_not '\x7d' _ (by decide)]
    simp
  | (k, v) :: e :: tl, fuel, rest, hp, _, hf => by
    obtain ⟨f, rfl⟩ : ∃ f, fuel = f + 1 := ⟨fuel - 1, by simp at hf; omega⟩
    have hk : plainStrB k = true := by
      simp only [plainTokenB, List.all_cons, Bool.and_eq_true] at hp
      exact hp.1.1
    have hv : plainStrB v = true := by
      simp only [plainTokenB, List.all_cons, Bool.and_eq_true] at hp
      exact hp.1.2
    have htl : plainTokenB (e :: tl) = true := by
      simp only [plainTokenB, List.all_cons, Bool.and_eq_true] at hp ⊢
      exact ⟨hp.2.1, hp.2.2⟩
    have ih := parsePairs_dumpObj (e :: tl) f rest htl (by simp)
      (by simp at hf ⊢; omega)
    have hshape :
        dumpObj (((k, v) :: e :: tl).map (fun p => (p.1, Val.vstr p.2))) ++ '\x7d' :: rest =
          jsonQuote k ++ (':' :: ' ' ::
            (jsonQuote v ++ (',' :: ' ' ::
              (dumpObj ((e :: tl).map (fun p => (p.1, Val.vstr p.2))) ++
                '\x7d' :: rest)))) := by
      simp [dumpObj, dumpVal, List.append_assoc]
    rw [hshape]
    simp only [parsePairs, skipSpaces_jsonQuote, parseQuoted_quote k _ hk]
    rw [skipSpaces_cons_not ':' _ (by decide)]
    simp only [skipSpaces_space, skipSpaces_jsonQuote, parseQuoted_quote v _ hv]
    rw [skipSpaces_cons_not ',' _ (by decide)]
    have hmain : parsePairs f
        (' ' :: (dumpObj ((e :: tl).map (fun p => (p.1, Val.vstr p.2))) ++ '\x7d' :: rest)) =
        some (e :: tl, rest) := by
      rw [parsePairs_space]
      exact ih
    simp only [List.map_cons] at hmain
    simp [hmain]

/-- A serialized nonempty object starts with the quote of its first key. -/
theorem dumpObj_head_quote (q : String × Val) (l : List (String × Val)) (X : List Char) :
    ∃ Y, dumpObj (q :: l) ++ X = '"' :: Y := by
  obtain ⟨k, v⟩ := q
  cases l with
  | nil =>
    exact ⟨escapeChars k.data ++ ['"'] ++ (':' :: ' ' :: dumpVal v ++ X), by
      simp [dumpObj, jsonQuote, List.append_assoc]⟩
  | cons e tl =>
    exact ⟨escapeChars k.data ++ ['"'] ++
      ((':' :: ' ' :: dumpVal v) ++ (',' :: ' ' :: dumpObj (e :: tl)) ++ X), by
      simp [dumpObj, jsonQuote, List.append_assoc]⟩

/-- Serialized objects are at least as long as their entry count. -/
theorem dumpObj_len_ge : ∀ (l : List (String × Val)), l.length ≤ (dumpObj l).length
  | [] => by simp [dumpObj]
  | [(k, v)] => by
    simp [dumpObj, jsonQuote]
  | (k, v) :: e :: tl => by
    have ih := dumpObj_len_ge (e :: tl)
    simp only [dumpObj, List.length_append, List.length_cons, jsonQuote] at ih ⊢
    omega

/-- Parsing the full serialization of a plain token restores it. -/
theorem parseTokenChars_dumps (t : PageToken) (h : plainTokenB t = true) :
    parseTokenChars (dumpsToken t).data = some t := by
  cases t with
  | nil => decide
  | cons p tl =>
    have hdata : (dumpsToken (p :: tl)).data =
        '\x7b' :: (dumpObj ((p :: tl).map fun q => (q.1, Val.vstr q.2)) ++ ['\x7d']) := rfl
    obtain ⟨Y, hY⟩ := dumpObj_head_quote (p.1, Val.vstr p.2)
      (tl.map fun q => (q.1, Val.vstr q.2)) ['\x7d']
    have hY2 : dumpObj ((p :: tl).map fun q => (q.1, Val.vstr q.2)) ++ ['\x7d'] =
        '"' :: Y := by
      simpa [List.map_cons] using hY
    have hfuel : (p :: tl).length ≤
        (dumpObj ((p :: tl).map fun q => (q.1, Val.vstr q.2)) ++ ['\x7d']).length + 1 := by
      have h1 := dumpObj_len_ge ((p :: tl).map fun q => (q.1, Val.vstr q.2))
      rw [List.length_map] at h1
      have h2 : (dumpObj ((p :: tl).map fun q => (q.1, Val.vstr q.2)) ++ ['\x7d']).length =
          (dumpObj ((p :: tl).map fun q => (q.1, Val.vstr q.2))).length + 1 := by
        simp
      omega
    have hpp := parsePairs_dumpObj (p :: tl)
      ((dumpObj ((p :: tl).map fun q => (q.1, Val.vstr q.2)) ++ ['\x7d']).length + 1)
      [] h (by simp) hfuel
    have hpp2 : parsePairs
        ((dumpObj ((p :: tl).map fun q => (q.1, Val.vstr q.2)) ++ ['\x7d']).length + 1)
        (dumpObj ((p :: tl).map fun q => (q.1, Val.vstr q.2)) ++ ['\x7d']) =
        some (p :: tl, []) := hpp
    have hskip : skipSpaces ((dumpsToken (p :: tl)).data) =
        '\x7b' :: (dumpObj ((p :: tl).map fun q => (q.1, Val.vstr q.2)) ++ ['\x7d']) := by
      rw [hdata]
      exact skipSpaces_cons_not _ _ (by decide)
    have hskip2 : skipSpaces
        (dumpObj ((p :: tl).map fun q => (q.1, Val.vstr q.2)) ++ ['\x7d']) = '"' :: Y := by
      rw [hY2]
      exact skipSpaces_cons_not _ _ (by decide)
    simp only [parseTokenChars, hskip, hskip2]
    rw [hpp2]
    simp [skipSpaces]

/-- C9. The `next_cursor` returned by trace listing is the base64
encoding of the JSON serialization of the store's `LastEvaluatedKey`;
decoding a cursor so produced yields exactly the original paging token;
and any cursor that fails to decode is silently treated as absent, so the
query starts fresh from the newest record. -/
theorem cursor_roundtrip_spec :
    (∀ lastKey : PageToken,
      next_cursor_of (some lastKey) = some (encode_cursor lastKey)) ∧
    (∀ t : PageToken, plainTokenB t = true →
      decode_cursor (encode_cursor t) = some t) ∧
    (∀ c : String, decode_cursor c = none →
      cursor_start_key (some c) = cursor_start_key none) := by
  refine ⟨fun _ => rfl, ?_, ?_⟩
  · intro t ht
    have hascii := dumpsToken_ascii t ht
    have hbytes := strToBytes_lt (dumpsToken t) hascii
    simp only [decode_cursor, encode_cursor,
      b64Decode_encode (strToBytes (dumpsToken t)) hbytes,
      bytesToAscii_strToBytes (dumpsToken t) hascii]
    exact parseTokenChars_dumps t ht
  · intro c hc
    simp only [cursor_start_key]
    by_cases h0 : c = ""
    · rw [if_pos h0]
    · rw [if_neg h0, hc]

/-- Witness for C9 at a concrete paging token and a concrete undecodable
cursor. -/
theorem cursor_roundtrip_spec_witness :
    plainTokenB [("project_id", "dev")] = true ∧
    decode_cursor (encode_cursor [("project_id", "dev")]) =
      some [("project_id", "dev")] ∧
    decode_cursor "%" = none ∧
    cursor_start_key (some "%") = cursor_start_key none :=
  ⟨by decide, cursor_roundtrip_spec.2.1 [("project_id", "dev")] (by decide),
   by decide, cursor_roundtrip_spec.2.2 "%" (by decide)⟩

/-- Witness for the amended C7: a supplied `output_data` clause appears,
and a `SET` on `end_time` leaves the attribute `a` untouched. -/
theorem completion_update_expr_spec_witness :
    ("output_data = :output_data" ∈
      span_update_parts (some (Val.vobj [])) none none none ↔
        some (Val.vobj []) ≠ none) ∧
    dictGet (applySet [("a", Val.vstr "x")] [("end_time", Val.vstr "t")]) "a" =
      dictGet [("a", Val.vstr "x")] "a" := by
  have h := completion_update_expr_spec (some (Val.vobj [])) none none none none
  obtain ⟨-, h2, -, -, -, -, -, -, -, -, hK⟩ := h
  exact ⟨h2, hK [("a", Val.vstr "x")] [("end_time", Val.vstr "t")] "a" (by decide)⟩
